import Mathlib

/-!
Verification of the conversion worker of `script.py` (batch video converter
driving an external ffmpeg process).  The Python worker is shallowly embedded:
pure string manipulations become Lean functions on `String`/`List Char`, the
stateful `run_conversions` loop becomes a pure interpreter over an explicit
environment (filesystem answers, per-launch process results, and the sequence
of reads of the shared `_is_running` flag), and the emitted Qt signals become
an explicit event list.
-/

namespace Conversor

/-- Model of Python single-character `str.split`: `splitOnChar sep cs` is the
list of chunks of `cs` separated by `sep` (always non-empty, chunks may be
empty), matching `filename.split('.')` in the source. -/
def splitOnChar (sep : Char) : List Char → List (List Char)
  | [] => [[]]
  | c :: rest =>
    let r := splitOnChar sep rest
    if c = sep then [] :: r
    else (c :: r.headD []) :: r.tail

/-- The maximal suffix of `cs` not containing `sep`; equivalently the text
after the last occurrence of `sep`, or all of `cs` when `sep` does not occur.
Used to model Python `split(sep)[-1]` and `os.path.basename`. -/
def afterLastChar (sep : Char) (cs : List Char) : List Char :=
  ((cs.reverse.takeWhile (fun c => c ≠ sep)).reverse)

/-- Worker for `replaceList`, structurally recursive on an explicit fuel
argument; the fuel is always instantiated with the length of the input, which
suffices because every step consumes at least one character (the pattern is
non-empty at every call site). -/
def replaceListAux (old new : List Char) : Nat → List Char → List Char
  | 0, s => s
  | _ + 1, [] => []
  | fuel + 1, c :: rest =>
    if old.isPrefixOf (c :: rest) then
      new ++ replaceListAux old new fuel ((c :: rest).drop old.length)
    else
      c :: replaceListAux old new fuel rest

/-- Model of Python `str.replace(old, new)` on character lists: replaces all
non-overlapping occurrences of `old`, scanning left to right.  All call sites
in the source use a non-empty `old`. -/
def replaceList (old new : List Char) (s : List Char) : List Char :=
  if old.isEmpty then s else replaceListAux old new s.length s

/-- Deduplication as effected by Python `set()` (order irrelevant: the result
is sorted immediately afterwards); keeps one copy of every element. -/
def dedupList : List String → List String
  | [] => []
  | x :: xs =>
    let r := dedupList xs
    if x ∈ r then r else x :: r

/-- Python string slicing `s[:n]` (by characters). -/
def strTake (s : String) (n : Nat) : String :=
  String.mk (s.toList.take n)

/-- Python `str.lower`, restricted (as `Char.toLower`) to the ASCII range that
file extensions and codec names use. -/
def lowerStr (s : String) : String :=
  String.mk (s.toList.map Char.toLower)

/-- Model of `os.path.join(a, b)` for POSIX paths, as used on
`os.path.join(self.input_dir, filename)` and on the output path. -/
def joinPath (a b : String) : String :=
  if b.toList.headD ' ' = '/' then b
  else if a = "" ∨ b = "" then a ++ b
  else if a.toList.getLastD ' ' = '/' then a ++ b
  else a ++ "/" ++ b

/-- Model of `os.path.basename`: the text after the last `/`. -/
def pathBasename (s : String) : String :=
  String.mk (afterLastChar '/' s.toList)

/-- Model of the base-name part of `os.path.splitext`: split at the last dot,
except that a name whose characters before the last dot are all dots (e.g.
`.bashrc`, `..mp4`) is not split. -/
def splitextBase (name : String) : String :=
  match name.toList.reverse.dropWhile (fun c => c ≠ '.') with
  | [] => name
  | _ :: base_rev =>
    if base_rev.any (fun c => c ≠ '.') then String.mk base_rev.reverse else name

/-- Line 68 of the source: the lower-cased text after the last dot of a file
name (`filename.split('.')[-1].lower()`), or `""` when the name has no dot. -/
def fileExtLower (filename : String) : String :=
  if '.' ∈ filename.toList then
    String.mk (((splitOnChar '.' filename.toList).getLastD []).map Char.toLower)
  else ""

/-- The `ffmpeg_params` dictionary of the source, as a typed record. -/
structure FfmpegConfig where
  VIDEO_CODEC_AMF : String
  RC_MODE : String
  QP_VALUE : String
  BITRATE_VBR : String
  MAX_BITRATE_VBR : String
  QUALITY_PRESET : String
  AUDIO_CODEC : String
  AUDIO_BITRATE : String
deriving DecidableEq

/-- The `DEFAULT_FFMPEG_CONFIG` dictionary of the source. -/
def DEFAULT_FFMPEG_CONFIG : FfmpegConfig :=
  { VIDEO_CODEC_AMF := "h264_amf"
    RC_MODE := "cqp"
    QP_VALUE := "23"
    BITRATE_VBR := "5M"
    MAX_BITRATE_VBR := "8M"
    QUALITY_PRESET := "quality"
    AUDIO_CODEC := "aac"
    AUDIO_BITRATE := "192k" }

/-- Line 104 of the source: the codec short name,
`cfg['VIDEO_CODEC_AMF'].replace('_amf', '').replace('h', 'x')`. -/
def codecShortName (codec : String) : String :=
  String.mk (replaceList ['h'] ['x'] (replaceList "_amf".toList [] codec.toList))

/-- Line 105 of the source: the derived output file name
`f"{filename_no_ext}_jellyfin_{video_codec_name_for_file}_gpu.mp4"`, where
`filename_no_ext` comes from `os.path.splitext` of the source base name. -/
def outputFilename (filename_with_ext codec : String) : String :=
  splitextBase filename_with_ext ++ "_jellyfin_" ++ codecShortName codec ++ "_gpu.mp4"

/-- Lines 112-122 of the source: the rate-control dependent middle part of the
ffmpeg argument list. -/
def rcArgs (cfg : FfmpegConfig) : List String :=
  if cfg.RC_MODE = "cqp" then
    ["-c:v", cfg.VIDEO_CODEC_AMF, "-rc", cfg.RC_MODE,
     "-qp", cfg.QP_VALUE, "-quality", cfg.QUALITY_PRESET]
  else if cfg.RC_MODE = "vbr_peak" then
    ["-c:v", cfg.VIDEO_CODEC_AMF, "-rc", cfg.RC_MODE,
     "-b:v", cfg.BITRATE_VBR, "-maxrate", cfg.MAX_BITRATE_VBR,
     "-quality", cfg.QUALITY_PRESET]
  else
    ["-c:v", cfg.VIDEO_CODEC_AMF, "-rc", "cqp",
     "-qp", "23", "-quality", "quality"]

/-- Line 120 of the source: the policy-fallback notice emitted on an
unrecognized rate-control mode (and nothing for the recognized modes). -/
def rcNoticeMsgs (cfg : FfmpegConfig) : List String :=
  if cfg.RC_MODE = "cqp" then []
  else if cfg.RC_MODE = "vbr_peak" then []
  else ["Modo RC " ++ cfg.RC_MODE ++ " desconhecido/inválido. Usando CQP (QP 23), quality quality."]

/-- Lines 110-125 of the source: the complete ffmpeg argument list for one
input file. -/
def buildCmd (cfg : FfmpegConfig) (input_path output_path : String) : List String :=
  ["ffmpeg", "-i", input_path]
    ++ rcArgs cfg
    ++ ["-c:a", cfg.AUDIO_CODEC, "-b:a", cfg.AUDIO_BITRATE,
        "-movflags", "+faststart", "-y", output_path]

/-- One entry of the input-directory listing: its name and whether the joined
path is a regular file (`os.path.isfile`). -/
structure DirEntry where
  name : String
  isFile : Bool
deriving DecidableEq

/-- The `ConversionWorker` constructor state (lines 36-43): directories, the
config, and the extension list normalized as
`[ext.lower() for ext in target_extensions_str_list if ext]`. -/
structure ConversionWorker where
  input_dir : String
  output_dir : String
  ffmpeg_params : FfmpegConfig
  target_extensions : List String
deriving DecidableEq

/-- Line 41 of the source: the worker constructor normalizes the raw extension
strings by dropping empty ones and lower-casing the rest. -/
def mkWorker (input_dir output_dir : String) (cfg : FfmpegConfig)
    (target_extensions_str_list : List String) : ConversionWorker :=
  { input_dir := input_dir
    output_dir := output_dir
    ffmpeg_params := cfg
    target_extensions :=
      (target_extensions_str_list.filter (fun e => e ≠ "")).map lowerStr }

/-- Lines 66-72 of the source: one step of the scan loop — keep a directory
entry when its lower-cased last-dot extension is in `targets` and the joined
path is a regular file, producing that joined path. -/
def scanFilter (input_dir : String) (targets : List String) (entry : DirEntry) :
    Option String :=
  if fileExtLower entry.name ∈ targets then
    if entry.isFile then some (joinPath input_dir entry.name) else none
  else none

/-- Python string comparison on character lists: lexicographic by code
point, as used by `sorted` on `str`. -/
def charListLe : List Char → List Char → Bool
  | [], _ => true
  | _ :: _, [] => false
  | a :: as, b :: bs =>
    if a.toNat < b.toNat then true
    else if b.toNat < a.toNat then false
    else charListLe as bs

/-- Python string comparison (`a <= b` on `str`): lexicographic by code
point. -/
def strLe (a b : String) : Bool :=
  charListLe a.toList b.toList

/-- Lines 64-81 of the source: list the input directory, keep names whose
lower-cased last-dot extension is in `targets` and whose joined path is a
regular file, then `sorted(list(set(...)))`. -/
def scanFiles (input_dir : String) (listing : List DirEntry)
    (targets : List String) : List String :=
  List.insertionSort (fun a b => strLe a b = true)
    (dedupList (listing.filterMap (scanFilter input_dir targets)))

/-- The four Qt signals of `ConversionWorker` as events of an explicit
stream. -/
inductive Event where
  | progressUpdate (msg : String)
  | overallProgress (done total : Nat)
  | conversionFinished (summary : String)
  | errorCritical (msg : String)
deriving DecidableEq

/-- An event that terminates the stream: `conversion_finished` or
`error_critical`. -/
def Event.isTerminal : Event → Bool
  | .conversionFinished _ => true
  | .errorCritical _ => true
  | _ => false

/-- Whether the event is an `overall_progress` emission. -/
def Event.isOverall : Event → Bool
  | .overallProgress _ _ => true
  | _ => false

/-- Whether the event is a `conversion_finished` emission. -/
def Event.isFinished : Event → Bool
  | .conversionFinished _ => true
  | _ => false

/-- Whether the event is an `error_critical` emission. -/
def Event.isCritical : Event → Bool
  | .errorCritical _ => true
  | _ => false

/-- Side-effecting steps the worker performs against the operating system. -/
inductive Action where
  | mkdirOutput (dir : String)
  | listInput (dir : String)
  | launch (cmd : List String)
deriving DecidableEq

/-- Result of one `subprocess.Popen` + `communicate` round trip:
`FileNotFoundError` (the ffmpeg executable is missing), any other exception,
or a normal exit with a code and captured output streams. -/
inductive ProcResult where
  | engineNotFound
  | otherError (msg : String)
  | exited (code : Int) (stdout stderr : String)
deriving DecidableEq

/-- How the input-directory listing can fail (lines 73-78). -/
inductive ListErr where
  | notFound
  | other (msg : String)
deriving DecidableEq

/-- The environment a run executes against: whether `os.makedirs` fails (and
its message), the `os.listdir` answer, the result of the k-th process launch,
and the value of the k-th read of the shared `_is_running` flag (the flag is
written concurrently by `stop_conversions`, so each read is an independent
observation). -/
structure Env where
  mkdirErr : Option String
  listing : Except ListErr (List DirEntry)
  proc : Nat → ProcResult
  flag : Nat → Bool

/-- Message of line 147: the fatal engine-not-found report. -/
def engineNotFoundMsg : String :=
  "Erro Crítico: ffmpeg não encontrado. Verifique a instalação e o PATH."

/-- Lines 136-144 of the source: classification of a normal process exit.
Returns the emitted `progress_update` messages (these branches emit nothing
else) and the increment of the succeeded counter.  `running` is the value
read from `_is_running` at line 136. -/
def outcomeMsgs (running : Bool) (code : Int) (stdout stderr : String)
    (filename_with_ext output_filename : String) : List String × Nat :=
  if running = false ∧ code ≠ 0 then
    (["Conversão de " ++ filename_with_ext ++ " interrompida."], 0)
  else if code = 0 then
    (["Sucesso: " ++ output_filename], 1)
  else
    (["Erro ao converter " ++ filename_with_ext ++ " (Status: " ++ toString code ++ ")."]
      ++ (if stdout ≠ "" then
            ["FFmpeg stdout (pode ser longo):\n" ++ strTake stdout 1000 ++ "..."]
          else [])
      ++ (if stderr ≠ "" then
            ["FFmpeg stderr (pode ser longo):\n" ++ strTake stderr 1000 ++ "..."]
          else []), 0)

/-- Accumulated outcome of the per-file loop (lines 95-156): events and
actions emitted from this point on, final counters, the indices of the next
flag read and process launch, and whether the loop aborted the whole run
(the engine-not-found `return`). -/
structure LoopOut where
  events : List Event
  actions : List Action
  flagIdx : Nat
  launches : Nat
  processed : Nat
  succeeded : Nat
  aborted : Bool

/-- The per-file loop of `run_conversions` (lines 95-156), over the remaining
`(index, full path)` pairs.  Each iteration first reads the `_is_running`
flag (break on false), then builds the output name and command, launches the
process, classifies the result (reading the flag a second time on a normal
exit), and emits the overall progress event. -/
def convLoop (w : ConversionWorker) (env : Env) (total : Nat) :
    List (Nat × String) → Nat → Nat → Nat → Nat → LoopOut
  | [], flagIdx, launches, processed, succeeded =>
    { events := [], actions := [], flagIdx := flagIdx, launches := launches
      processed := processed, succeeded := succeeded, aborted := false }
  | (i, file_path) :: rest, flagIdx, launches, processed, succeeded =>
    if env.flag flagIdx = false then
      { events := [.progressUpdate "Conversão cancelada pelo usuário."]
        actions := [], flagIdx := flagIdx + 1, launches := launches
        processed := processed, succeeded := succeeded, aborted := false }
    else
      let processed1 := processed + 1
      let filename_with_ext := pathBasename file_path
      let output_filename := outputFilename filename_with_ext w.ffmpeg_params.VIDEO_CODEC_AMF
      let output_file_path := joinPath w.output_dir output_filename
      let convertingEv : Event :=
        .progressUpdate ("[" ++ toString (i + 1) ++ "/" ++ toString total
          ++ "] Convertendo: " ++ filename_with_ext ++ "...")
      let noticeEvs : List Event :=
        (rcNoticeMsgs w.ffmpeg_params).map Event.progressUpdate
      let cmd := buildCmd w.ffmpeg_params file_path output_file_path
      match env.proc launches with
      | .engineNotFound =>
        { events := convertingEv :: noticeEvs ++ [.errorCritical engineNotFoundMsg]
          actions := [.launch cmd], flagIdx := flagIdx + 1, launches := launches + 1
          processed := processed1, succeeded := succeeded, aborted := true }
      | .otherError m =>
        let r := convLoop w env total rest (flagIdx + 1) (launches + 1) processed1 succeeded
        { r with
          events := convertingEv :: noticeEvs
            ++ [.progressUpdate ("Exceção durante conversão de " ++ filename_with_ext ++ ": " ++ m),
                .overallProgress (i + 1) total]
            ++ r.events
          actions := .launch cmd :: r.actions }
      | .exited code stdout stderr =>
        let running := env.flag (flagIdx + 1)
        let oc := outcomeMsgs running code stdout stderr filename_with_ext output_filename
        let r := convLoop w env total rest (flagIdx + 2) (launches + 1) processed1 (succeeded + oc.2)
        { r with
          events := convertingEv :: noticeEvs ++ oc.1.map Event.progressUpdate
            ++ [.overallProgress (i + 1) total] ++ r.events
          actions := .launch cmd :: r.actions }

/-- The observable outcome of one call of `run_conversions`. -/
structure RunResult where
  events : List Event
  actions : List Action
  launches : Nat
  processed : Nat
  succeeded : Nat

/-- The whole of `run_conversions` (lines 46-162): create the output
directory, short-circuit on an empty extension list, list and scan the input
directory, then run the per-file loop and emit the terminal summary (unless
the loop aborted fatally). -/
def runConversions (w : ConversionWorker) (env : Env) : RunResult :=
  let mkAct := Action.mkdirOutput w.output_dir
  match env.mkdirErr with
  | some e =>
    { events := [.errorCritical ("Erro crítico ao criar diretório de saída " ++ w.output_dir ++ ": " ++ e)]
      actions := [mkAct], launches := 0, processed := 0, succeeded := 0 }
  | none =>
    if w.target_extensions = [] then
      { events := [.progressUpdate "Nenhum formato de entrada especificado.",
                   .conversionFinished "Nenhum formato de entrada para procurar."]
        actions := [mkAct], launches := 0, processed := 0, succeeded := 0 }
    else
      let searching : Event :=
        .progressUpdate ("Procurando por arquivos com extensões: "
          ++ String.intercalate ", " w.target_extensions ++ " em " ++ w.input_dir)
      match env.listing with
      | .error .notFound =>
        { events := [searching,
                     .errorCritical ("Erro: Diretório de entrada não encontrado: " ++ w.input_dir)]
          actions := [mkAct, .listInput w.input_dir], launches := 0, processed := 0, succeeded := 0 }
      | .error (.other e) =>
        { events := [searching,
                     .errorCritical ("Erro ao listar arquivos no diretório de entrada: " ++ e)]
          actions := [mkAct, .listInput w.input_dir], launches := 0, processed := 0, succeeded := 0 }
      | .ok listing =>
        let files := scanFiles w.input_dir listing w.target_extensions
        if files = [] then
          { events := [searching,
                       .progressUpdate ("Nenhum arquivo com os formatos especificados ("
                         ++ String.intercalate ", " w.target_extensions ++ ") encontrado em "
                         ++ w.input_dir ++ "."),
                       .conversionFinished "Nenhum arquivo para converter."]
            actions := [mkAct, .listInput w.input_dir], launches := 0, processed := 0, succeeded := 0 }
        else
          let total := files.length
          let preEvents : List Event :=
            [searching,
             .progressUpdate ("Encontrados " ++ toString total ++ " arquivo(s) para processar."),
             .overallProgress 0 total]
          let lo := convLoop w env total files.enum 0 0 0 0
          if lo.aborted then
            { events := preEvents ++ lo.events
              actions := mkAct :: .listInput w.input_dir :: lo.actions
              launches := lo.launches, processed := lo.processed, succeeded := lo.succeeded }
          else
            let summary :=
              if env.flag lo.flagIdx then
                "Conversão concluída. " ++ toString lo.succeeded ++ "/" ++ toString total
                  ++ " arquivos convertidos com sucesso."
              else
                "Conversão cancelada. " ++ toString lo.succeeded ++ "/" ++ toString lo.processed
                  ++ " arquivos processados antes do cancelamento."
            { events := preEvents ++ lo.events ++ [.conversionFinished summary]
              actions := mkAct :: .listInput w.input_dir :: lo.actions
              launches := lo.launches, processed := lo.processed, succeeded := lo.succeeded }

/-- Whether `pat` occurs as a contiguous subsequence of `s` (Python
`pat in s` for strings); used to phrase side conditions on the codec
short-name derivation. -/
def containsSeq (pat : List Char) : List Char → Bool
  | [] => pat.isEmpty
  | c :: rest => pat.isPrefixOf (c :: rest) || containsSeq pat rest

/-- The four rate-control flag tokens of the built command line. -/
def flagTokens : List String := ["-qp", "-quality", "-b:v", "-maxrate"]

/-- Validity of a configuration for flag-membership reasoning: none of the
free-form string fields (nor the two paths) is itself one of the rate-control
flag tokens.  This is the spec's notion of a valid `EncoderConfig`, whose
values are free-form strings. -/
def fieldsAvoidFlagTokens (cfg : FfmpegConfig) (input_path output_path : String) : Prop :=
  ∀ t ∈ flagTokens,
    t ≠ input_path ∧ t ≠ output_path ∧ t ≠ cfg.VIDEO_CODEC_AMF ∧ t ≠ cfg.QP_VALUE
      ∧ t ≠ cfg.BITRATE_VBR ∧ t ≠ cfg.MAX_BITRATE_VBR ∧ t ≠ cfg.QUALITY_PRESET
      ∧ t ≠ cfg.AUDIO_CODEC ∧ t ≠ cfg.AUDIO_BITRATE

instance (cfg : FfmpegConfig) (i o : String) : Decidable (fieldsAvoidFlagTokens cfg i o) := by
  unfold fieldsAvoidFlagTokens; infer_instance

/-- The `(done, total)` arguments of the `overall_progress` emissions of a
run, in emission order. -/
def overallPairs (events : List Event) : List (Nat × Nat) :=
  events.filterMap fun e =>
    match e with
    | .overallProgress d t => some (d, t)
    | _ => none

/-- The summary messages of `conversion_finished` emissions of a run. -/
def finishedMsgs (events : List Event) : List String :=
  events.filterMap fun e =>
    match e with
    | .conversionFinished m => some m
    | _ => none

/-- Worker of the concrete scenarios: input `/in`, output `/out`, default
config, extension filter `mp4`. -/
def wScenario : ConversionWorker := mkWorker "/in" "/out" DEFAULT_FFMPEG_CONFIG ["mp4"]

/-- Worker with an empty extension list (nothing-to-do short circuit). -/
def wNoExt : ConversionWorker := mkWorker "/in" "/out" DEFAULT_FFMPEG_CONFIG []

/-- Environment of the C2 scenario: three files, the second of which exits
with code 1, no cancellation. -/
def envScenario : Env :=
  { mkdirErr := none
    listing := .ok [⟨"a.mp4", true⟩, ⟨"b.mp4", true⟩, ⟨"c.mp4", true⟩]
    proc := fun k => if k = 1 then .exited 1 "" "" else .exited 0 "" ""
    flag := fun _ => true }

/-- Environment of the C1 scenario: one file; the `_is_running` flag is read
true at the top of the iteration (read 0) and false at every later read —
the stop request arrives while the process is live — and the terminated
process exits with code 0. -/
def envCancelExit0 : Env :=
  { mkdirErr := none
    listing := .ok [⟨"a.mp4", true⟩]
    proc := fun _ => .exited 0 "" ""
    flag := fun k => k == 0 }

/-- Environment of the C6 scenario: the engine executable is missing, so
every launch raises FileNotFoundError; two candidate files; no
cancellation. -/
def envEngineMissing : Env :=
  { mkdirErr := none
    listing := .ok [⟨"a.mp4", true⟩, ⟨"b.mp4", true⟩]
    proc := fun _ => .engineNotFound
    flag := fun _ => true }

/-- Environment with an empty input directory and no failures. -/
def envIdle : Env :=
  { mkdirErr := none
    listing := .ok []
    proc := fun _ => .exited 0 "" ""
    flag := fun _ => true }

/-! ### Helper lemmas about the string primitives -/

theorem afterLastChar_def (sep : Char) (cs : List Char) :
    afterLastChar sep cs
      = ((cs.reverse.takeWhile (fun c => !decide (c = sep))).reverse) := by
  unfold afterLastChar
  simp only [ne_eq, decide_not]

theorem takeWhile_append_all {p : Char → Bool} (xs ys : List Char)
    (h : ∀ x ∈ xs, p x = true) :
    (xs ++ ys).takeWhile p = xs ++ ys.takeWhile p := by
  induction xs with
  | nil => rfl
  | cons x xs ih =>
    have hx := h x (List.mem_cons_self x xs)
    simp only [List.cons_append, List.takeWhile_cons, hx, if_true]
    rw [ih (fun a ha => h a (List.mem_cons_of_mem x ha))]

theorem dropWhile_append_all {p : Char → Bool} (xs ys : List Char)
    (h : ∀ x ∈ xs, p x = true) :
    (xs ++ ys).dropWhile p = ys.dropWhile p := by
  induction xs with
  | nil => rfl
  | cons x xs ih =>
    have hx := h x (List.mem_cons_self x xs)
    simp only [List.cons_append, List.dropWhile_cons, hx, if_true]
    exact ih (fun a ha => h a (List.mem_cons_of_mem x ha))

theorem afterLastChar_sep_cons (sep : Char) (rest : List Char) :
    afterLastChar sep (sep :: rest) = afterLastChar sep rest := by
  rw [afterLastChar_def, afterLastChar_def]
  have key : ∀ l : List Char,
      (l ++ [sep]).takeWhile (fun c => !decide (c = sep))
        = l.takeWhile (fun c => !decide (c = sep)) := by
    intro l
    induction l with
    | nil => simp [List.takeWhile_cons]
    | cons x xs ih =>
      by_cases hx : x = sep <;> simp [List.takeWhile_cons, hx, ih]
  simp only [List.reverse_cons, key]

theorem afterLastChar_cons_of_mem {sep : Char} (c : Char) {rest : List Char}
    (h : sep ∈ rest) :
    afterLastChar sep (c :: rest) = afterLastChar sep rest := by
  rw [afterLastChar_def, afterLastChar_def]
  have key : ∀ l : List Char, sep ∈ l →
      (l ++ [c]).takeWhile (fun x => !decide (x = sep))
        = l.takeWhile (fun x => !decide (x = sep)) := by
    intro l hl
    induction l with
    | nil => cases hl
    | cons x xs ih =>
      by_cases hx : x = sep
      · simp [List.takeWhile_cons, hx]
      · have hxs : sep ∈ xs := by
          cases List.mem_cons.mp hl with
          | inl h1 => exact absurd h1.symm hx
          | inr h1 => exact h1
        simp [List.takeWhile_cons, hx, ih hxs]
  simp only [List.reverse_cons, key rest.reverse (List.mem_reverse.mpr h)]

theorem afterLastChar_cons_of_not_mem {sep c : Char} {rest : List Char}
    (h : sep ∉ rest) (hc : c ≠ sep) :
    afterLastChar sep (c :: rest) = c :: rest := by
  rw [afterLastChar_def]
  rw [List.reverse_cons, List.takeWhile_eq_self_iff.mpr ?all]
  · simp
  case all =>
    intro x hx
    rcases List.mem_append.mp hx with h1 | h1
    · have h2 := List.mem_reverse.mp h1
      simp only [Bool.not_eq_true', decide_eq_false_iff_not]
      intro he; exact h (he ▸ h2)
    · simp only [List.mem_singleton.mp h1, Bool.not_eq_true', decide_eq_false_iff_not]
      exact hc

theorem afterLastChar_append (pre ext : List Char) {sep : Char} (h : sep ∉ ext) :
    afterLastChar sep (pre ++ sep :: ext) = ext := by
  rw [afterLastChar_def]
  have h1 : (pre ++ sep :: ext).reverse = ext.reverse ++ sep :: pre.reverse := by
    simp
  rw [h1, takeWhile_append_all]
  · simp [List.takeWhile_cons]
  · intro x hx
    have h2 := List.mem_reverse.mp hx
    simp only [Bool.not_eq_true', decide_eq_false_iff_not]
    intro he; exact h (he ▸ h2)

theorem dropWhile_eq_sep_cons {sep : Char} :
    ∀ {l : List Char}, sep ∈ l →
      ∃ t, l.dropWhile (fun x => !decide (x = sep)) = sep :: t := by
  intro l hl
  induction l with
  | nil => cases hl
  | cons x xs ih =>
    by_cases hx : x = sep
    · subst hx
      exact ⟨xs, by simp [List.dropWhile_cons]⟩
    · have hxs : sep ∈ xs := by
        cases List.mem_cons.mp hl with
        | inl h1 => exact absurd h1.symm hx
        | inr h1 => exact h1
      obtain ⟨t, ht⟩ := ih hxs
      exact ⟨t, by simp [List.dropWhile_cons, hx, ht]⟩

theorem exists_decomp_of_mem {sep : Char} {cs : List Char} (h : sep ∈ cs) :
    ∃ pre, cs = pre ++ sep :: afterLastChar sep cs ∧ sep ∉ afterLastChar sep cs := by
  obtain ⟨t, ht⟩ := dropWhile_eq_sep_cons (List.mem_reverse.mpr h)
  have hsplit :=
    (List.takeWhile_append_dropWhile (fun x => !decide (x = sep)) cs.reverse).symm
  rw [ht] at hsplit
  refine ⟨t.reverse, ?_, ?_⟩
  · have h2 := congrArg List.reverse hsplit
    rw [List.reverse_reverse] at h2
    rw [afterLastChar_def]
    conv_lhs => rw [h2]
    simp
  · rw [afterLastChar_def]
    intro hmem
    have h1 := List.mem_reverse.mp hmem
    have h2 := List.mem_takeWhile_imp h1
    simp at h2

theorem splitOnChar_ne_nil (sep : Char) (l : List Char) : splitOnChar sep l ≠ [] := by
  cases l with
  | nil => simp [splitOnChar]
  | cons c rest =>
    simp only [splitOnChar]
    split <;> simp

theorem splitOnChar_of_not_mem {sep : Char} :
    ∀ {l : List Char}, sep ∉ l → splitOnChar sep l = [l] := by
  intro l hl
  induction l with
  | nil => rfl
  | cons c rest ih =>
    have hc : ¬c = sep := fun he => hl (he ▸ List.mem_cons_self c rest)
    have hrest : sep ∉ rest := fun hm => hl (List.mem_cons_of_mem c hm)
    simp only [splitOnChar, if_neg hc, ih hrest]
    rfl

theorem splitOnChar_tail_ne_nil {sep : Char} :
    ∀ {l : List Char}, sep ∈ l → (splitOnChar sep l).tail ≠ [] := by
  intro l hl
  induction l with
  | nil => cases hl
  | cons c rest ih =>
    by_cases hc : c = sep
    · simp only [splitOnChar, if_pos hc, List.tail_cons]
      exact splitOnChar_ne_nil sep rest
    · have hrest : sep ∈ rest := by
        cases List.mem_cons.mp hl with
        | inl h1 => exact absurd h1.symm hc
        | inr h1 => exact h1
      simp only [splitOnChar, if_neg hc, List.tail_cons]
      exact ih hrest

theorem splitOnChar_getLastD (sep : Char) :
    ∀ cs : List Char, (splitOnChar sep cs).getLastD [] = afterLastChar sep cs := by
  intro cs
  induction cs with
  | nil => rfl
  | cons c rest ih =>
    by_cases hc : c = sep
    · subst hc
      have hstep : splitOnChar c (c :: rest) = [] :: splitOnChar c rest := by
        simp [splitOnChar]
      rw [afterLastChar_sep_cons, hstep, List.getLastD_cons, ← ih]
    · have hstep : splitOnChar sep (c :: rest)
          = (c :: (splitOnChar sep rest).headD []) :: (splitOnChar sep rest).tail := by
        simp [splitOnChar, hc]
      by_cases hm : sep ∈ rest
      · have htail := splitOnChar_tail_ne_nil hm
        rw [afterLastChar_cons_of_mem c hm, ← ih, hstep]
        obtain ⟨h0, t, hr⟩ : ∃ h0 t, splitOnChar sep rest = h0 :: t := by
          cases hr0 : splitOnChar sep rest with
          | nil => exact absurd hr0 (splitOnChar_ne_nil sep rest)
          | cons a b => exact ⟨a, b, rfl⟩
        rw [hr] at htail ⊢
        simp only [List.tail_cons] at htail ⊢
        obtain ⟨z, zs, rfl⟩ := List.exists_cons_of_ne_nil htail
        simp [List.getLastD_cons]
      · have hr := splitOnChar_of_not_mem hm
        rw [afterLastChar_cons_of_not_mem hm hc, hstep, hr]
        simp [List.getLastD_cons]

theorem replaceListAux_nil (old new : List Char) (f : Nat) :
    replaceListAux old new f [] = [] := by
  cases f <;> rfl

theorem replaceListAux_cons (old new : List Char) (f : Nat) (c : Char) (rest : List Char) :
    replaceListAux old new (f + 1) (c :: rest)
      = if old.isPrefixOf (c :: rest) then
          new ++ replaceListAux old new f ((c :: rest).drop old.length)
        else c :: replaceListAux old new f rest := rfl

theorem nil_isPrefixOf (l : List Char) : ([] : List Char).isPrefixOf l = true := by
  cases l <;> rfl

theorem isPrefixOf_append_self :
    ∀ l t : List Char, l.isPrefixOf (l ++ t) = true := by
  intro l t
  induction l with
  | nil => exact nil_isPrefixOf t
  | cons x xs ih => simp [List.isPrefixOf, ih]

theorem isPrefixOf_take :
    ∀ (l s : List Char) (k : Nat), l.isPrefixOf s = true → l.length ≤ k →
      l.isPrefixOf (s.take k) = true := by
  intro l
  induction l with
  | nil => intro s k _ _; exact nil_isPrefixOf _
  | cons x xs ih =>
    intro s k hp hk
    cases s with
    | nil => simp [List.isPrefixOf] at hp
    | cons y ys =>
      cases k with
      | zero => simp at hk
      | succ k =>
        simp only [List.isPrefixOf, Bool.and_eq_true] at hp
        simp only [List.take_succ_cons, List.isPrefixOf, Bool.and_eq_true]
        exact ⟨hp.1, ih ys k hp.2 (Nat.le_of_succ_le_succ hk)⟩

theorem replaceListAux_singleton (a b : Char) :
    ∀ (s : List Char) (f : Nat), s.length ≤ f →
      replaceListAux [a] [b] f s = s.map (fun c => if c = a then b else c) := by
  intro s
  induction s with
  | nil => intro f _; rw [replaceListAux_nil]; rfl
  | cons c rest ih =>
    intro f hf
    cases f with
    | zero => simp at hf
    | succ f =>
      have hpre : ([a].isPrefixOf (c :: rest)) = (a == c) := by
        simp [List.isPrefixOf]
      rw [replaceListAux_cons, hpre]
      by_cases hc : c = a
      · subst hc
        simp only [beq_self_eq_true, if_true, List.length_cons, List.length_nil,
          List.drop_succ_cons, List.drop_zero, List.singleton_append, List.map_cons,
          if_pos rfl]
        rw [ih f (Nat.le_of_succ_le_succ hf)]
      · have hac : (a == c) = false := by
          exact beq_eq_false_iff_ne.mpr (fun he => hc he.symm)
        simp only [hac, Bool.false_eq_true, if_false, List.map_cons, if_neg hc]
        rw [ih f (Nat.le_of_succ_le_succ hf)]

theorem replaceListAux_append_pat (old new : List Char) (hold : old ≠ []) :
    ∀ (pre : List Char) (f : Nat), (pre ++ old).length ≤ f →
      containsSeq old (pre ++ old.dropLast) = false →
      replaceListAux old new f (pre ++ old) = pre ++ new := by
  intro pre
  induction pre with
  | nil =>
    intro f hf hocc
    have hlen : 0 < old.length := List.length_pos.mpr hold
    cases f with
    | zero =>
      simp only [List.nil_append] at hf
      exact absurd (List.length_eq_zero.mp (Nat.le_zero.mp hf)) hold
    | succ f =>
      obtain ⟨o, os, rfl⟩ := List.exists_cons_of_ne_nil hold
      simp only [List.nil_append]
      have hpre := isPrefixOf_append_self (o :: os) []
      rw [List.append_nil] at hpre
      rw [replaceListAux_cons, hpre]
      simp only [if_true]
      rw [List.drop_length, replaceListAux_nil, List.append_nil]
  | cons x pre ih =>
    intro f hf hocc
    cases f with
    | zero => simp at hf
    | succ f =>
      have hocc1 : containsSeq old (pre ++ old.dropLast) = false := by
        have := congrArg (fun l => l) hocc
        simp only [List.cons_append, containsSeq, Bool.or_eq_false_iff] at hocc
        exact hocc.2
      have hnp : old.isPrefixOf (x :: (pre ++ old)) = false := by
        by_contra hcon
        have hp : old.isPrefixOf (x :: pre ++ old) = true := by
          cases h0 : old.isPrefixOf (x :: pre ++ old) with
          | true => rfl
          | false => exact absurd h0 hcon
        have hlen : 0 < old.length := List.length_pos.mpr hold
        have htake : old.isPrefixOf ((x :: pre ++ old).take ((x :: pre).length + (old.length - 1))) = true := by
          refine isPrefixOf_take old (x :: pre ++ old) _ hp ?_
          simp only [List.length_cons]
          omega
        rw [List.take_append (old.length - 1), ← List.dropLast_eq_take] at htake
        have hC : containsSeq old (x :: pre ++ old.dropLast) = true := by
          simp only [List.cons_append, containsSeq, Bool.or_eq_true]
          left
          simpa using htake
        rw [hocc] at hC
        exact absurd hC (by simp)
      have hf1 : (pre ++ old).length ≤ f := by
        simp only [List.cons_append, List.length_cons] at hf
        simpa using Nat.le_of_succ_le_succ hf
      rw [List.cons_append, replaceListAux_cons, hnp]
      simp only [Bool.false_eq_true, if_false]
      rw [ih f hf1 hocc1, List.cons_append]

theorem replaceList_append_pat {old : List Char} (new : List Char) (hold : old ≠ [])
    (pre : List Char) (hocc : containsSeq old (pre ++ old.dropLast) = false) :
    replaceList old new (pre ++ old) = pre ++ new := by
  unfold replaceList
  rw [if_neg (by simp [List.isEmpty_iff, hold])]
  exact replaceListAux_append_pat old new hold pre _ (Nat.le_refl _) hocc

theorem replaceList_singleton (a b : Char) (s : List Char) :
    replaceList [a] [b] s = s.map (fun c => if c = a then b else c) := by
  unfold replaceList
  rw [if_neg (by simp)]
  exact replaceListAux_singleton a b s _ (Nat.le_refl _)

theorem codecShortName_strip (c : List Char)
    (hocc : containsSeq "_amf".toList (c ++ "_amf".toList.dropLast) = false) :
    codecShortName (String.mk (c ++ "_amf".toList))
      = String.mk (c.map (fun ch => if ch = 'h' then 'x' else ch)) := by
  unfold codecShortName
  have h1 : (String.mk (c ++ "_amf".toList)).toList = c ++ "_amf".toList := rfl
  rw [h1, replaceList_append_pat [] (by simp [String.toList]) c hocc, List.append_nil,
    replaceList_singleton]

theorem splitextBase_append {b e : String} (hb : b.toList.any (fun c => c ≠ '.') = true)
    (he : '.' ∉ e.toList) :
    splitextBase (b ++ "." ++ e) = b := by
  unfold splitextBase
  have h1 : (b ++ "." ++ e).toList = b.toList ++ '.' :: e.toList := by
    show ((b ++ ".") ++ e).data = b.data ++ '.' :: e.data
    have h2 : ((b ++ ".") ++ e).data = (b.data ++ ['.']) ++ e.data := rfl
    rw [h2, List.append_assoc]
    rfl
  rw [h1]
  have h2 : (b.toList ++ '.' :: e.toList).reverse = e.toList.reverse ++ '.' :: b.toList.reverse := by
    simp
  rw [h2, dropWhile_append_all]
  · have h3 : ('.' :: b.toList.reverse).dropWhile (fun c => decide (c ≠ '.'))
        = '.' :: b.toList.reverse := by
      simp [List.dropWhile_cons]
    rw [h3]
    have h4 : (b.toList.reverse.any fun c => c ≠ '.') = true := by
      simp only [List.any_eq_true] at hb ⊢
      obtain ⟨x, hx, hpx⟩ := hb
      exact ⟨x, List.mem_reverse.mpr hx, hpx⟩
    simp only [h4, if_true]
    rw [List.reverse_reverse]
    rfl
  · intro x hx
    have h5 := List.mem_reverse.mp hx
    simp only [decide_eq_true_eq]
    intro hxe; exact he (hxe ▸ h5)

theorem fileExtLower_eq_afterLast (name : String) (h : '.' ∈ name.toList) :
    fileExtLower name = String.mk ((afterLastChar '.' name.toList).map Char.toLower) := by
  unfold fileExtLower
  rw [if_pos h, splitOnChar_getLastD]

theorem fileExtLower_mem_iff {name : String} {E : List String} (hE : "" ∉ E) :
    fileExtLower name ∈ E ↔
      ∃ pre ext, name.toList = pre ++ '.' :: ext ∧ '.' ∉ ext
        ∧ String.mk (ext.map Char.toLower) ∈ E := by
  by_cases h : '.' ∈ name.toList
  · rw [fileExtLower_eq_afterLast name h]
    constructor
    · intro hmem
      obtain ⟨pre, hdec, hnd⟩ := exists_decomp_of_mem h
      exact ⟨pre, afterLastChar '.' name.toList, hdec, hnd, hmem⟩
    · rintro ⟨pre, ext, hdec, hnd, hmem⟩
      rw [hdec, afterLastChar_append pre ext hnd]
      exact hmem
  · unfold fileExtLower
    rw [if_neg h]
    constructor
    · intro hmem; exact absurd hmem hE
    · rintro ⟨pre, ext, hdec, -, -⟩
      refine absurd ?_ h
      rw [hdec]
      simp

theorem char_eq_of_toNat_eq {a b : Char} (h : a.toNat = b.toNat) : a = b :=
  Char.eq_of_val_eq (UInt32.toNat.inj h)

theorem charListLe_total : ∀ xs ys : List Char,
    charListLe xs ys = true ∨ charListLe ys xs = true := by
  intro xs
  induction xs with
  | nil => intro ys; exact Or.inl rfl
  | cons a as ih =>
    intro ys
    cases ys with
    | nil => exact Or.inr rfl
    | cons b bs =>
      by_cases h1 : a.toNat < b.toNat
      · exact Or.inl (by simp [charListLe, h1])
      · by_cases h2 : b.toNat < a.toNat
        · exact Or.inr (by simp [charListLe, h2])
        · rcases ih bs with h | h
          · exact Or.inl (by simp [charListLe, h1, h2, h])
          · exact Or.inr (by simp [charListLe, h1, h2, h])

theorem charListLe_trans : ∀ xs ys zs : List Char,
    charListLe xs ys = true → charListLe ys zs = true → charListLe xs zs = true := by
  intro xs
  induction xs with
  | nil => intro ys zs _ _; rfl
  | cons a as ih =>
    intro ys zs h1 h2
    cases ys with
    | nil => simp [charListLe] at h1
    | cons b bs =>
      cases zs with
      | nil => simp [charListLe] at h2
      | cons c cs =>
        simp only [charListLe] at h1 h2 ⊢
        by_cases hab : a.toNat < b.toNat
        · by_cases hbc : b.toNat < c.toNat
          · rw [if_pos (by omega : a.toNat < c.toNat)]
          · by_cases hcb : c.toNat < b.toNat
            · rw [if_neg hbc, if_pos hcb] at h2
              exact absurd h2 (by simp)
            · rw [if_pos (by omega : a.toNat < c.toNat)]
        · by_cases hba : b.toNat < a.toNat
          · rw [if_neg hab, if_pos hba] at h1
            exact absurd h1 (by simp)
          · rw [if_neg hab, if_neg hba] at h1
            by_cases hbc : b.toNat < c.toNat
            · rw [if_pos (by omega : a.toNat < c.toNat)]
            · by_cases hcb : c.toNat < b.toNat
              · rw [if_neg hbc, if_pos hcb] at h2
                exact absurd h2 (by simp)
              · rw [if_neg hbc, if_neg hcb] at h2
                rw [if_neg (by omega : ¬a.toNat < c.toNat),
                  if_neg (by omega : ¬c.toNat < a.toNat)]
                exact ih bs cs h1 h2

theorem charListLe_antisymm : ∀ xs ys : List Char,
    charListLe xs ys = true → charListLe ys xs = true → xs = ys := by
  intro xs
  induction xs with
  | nil =>
    intro ys _ h2
    cases ys with
    | nil => rfl
    | cons b bs => simp [charListLe] at h2
  | cons a as ih =>
    intro ys h1 h2
    cases ys with
    | nil => simp [charListLe] at h1
    | cons b bs =>
      simp only [charListLe] at h1 h2
      by_cases hab : a.toNat < b.toNat
      · rw [if_neg (by omega : ¬b.toNat < a.toNat), if_pos hab] at h2
        exact absurd h2 (by simp)
      · by_cases hba : b.toNat < a.toNat
        · rw [if_neg hab, if_pos hba] at h1
          exact absurd h1 (by simp)
        · rw [if_neg hab, if_neg hba] at h1
          rw [if_neg hba, if_neg hab] at h2
          rw [char_eq_of_toNat_eq (by omega : a.toNat = b.toNat), ih bs h1 h2]

instance strLe_isTotal : IsTotal String (fun a b => strLe a b = true) :=
  ⟨fun a b => charListLe_total a.toList b.toList⟩

instance strLe_isTrans : IsTrans String (fun a b => strLe a b = true) :=
  ⟨fun a b c h1 h2 => charListLe_trans a.toList b.toList c.toList h1 h2⟩

instance strLe_isAntisymm : IsAntisymm String (fun a b => strLe a b = true) :=
  ⟨fun a b h1 h2 => String.ext (charListLe_antisymm a.toList b.toList h1 h2)⟩

theorem mem_dedupList {x : String} : ∀ {l : List String}, x ∈ dedupList l ↔ x ∈ l := by
  intro l
  induction l with
  | nil => simp [dedupList]
  | cons y ys ih =>
    simp only [dedupList]
    by_cases hy : y ∈ dedupList ys
    · rw [if_pos hy]
      constructor
      · intro h; exact List.mem_cons_of_mem y (ih.mp h)
      · intro h
        rcases List.mem_cons.mp h with h1 | h1
        · exact h1 ▸ hy
        · exact ih.mpr h1
    · rw [if_neg hy]
      simp [List.mem_cons, ih]

theorem nodup_dedupList : ∀ l : List String, (dedupList l).Nodup := by
  intro l
  induction l with
  | nil => simp [dedupList]
  | cons y ys ih =>
    simp only [dedupList]
    by_cases hy : y ∈ dedupList ys
    · rw [if_pos hy]; exact ih
    · rw [if_neg hy]; exact List.Nodup.cons hy ih

theorem perm_dedupList {l₁ l₂ : List String} (h : List.Perm l₁ l₂) :
    List.Perm (dedupList l₁) (dedupList l₂) := by
  induction h with
  | nil => exact List.Perm.refl _
  | @cons x t₁ t₂ htail ih =>
    simp only [dedupList]
    have hmem : ∀ {a : String}, a ∈ dedupList t₁ ↔ a ∈ dedupList t₂ := by
      intro a
      rw [mem_dedupList, mem_dedupList]
      exact htail.mem_iff
    by_cases hx : x ∈ dedupList t₁
    · rw [if_pos hx, if_pos (hmem.mp hx)]
      exact ih
    · rw [if_neg hx, if_neg (fun hc => hx (hmem.mpr hc))]
      exact ih.cons x
  | swap x y l =>
    simp only [dedupList]
    by_cases hxy : x = y
    · subst hxy; exact List.Perm.refl _
    · have hyx : y ∉ (x :: dedupList l) → y ∉ dedupList l := fun h hc =>
        h (List.mem_cons_of_mem x hc)
      by_cases hx : x ∈ dedupList l <;> by_cases hy : y ∈ dedupList l
      · simp only [if_pos hx, if_pos hy]
        exact List.Perm.refl _
      · simp only [if_pos hx, if_neg hy]
        rw [if_pos (List.mem_cons_of_mem y hx)]
      · simp only [if_neg hx, if_pos hy]
        rw [if_pos (List.mem_cons_of_mem x hy)]
      · simp only [if_neg hx, if_neg hy]
        have h1 : y ∉ (x :: dedupList l) := by
          intro hc
          rcases List.mem_cons.mp hc with h0 | h0
          · exact hxy h0.symm
          · exact hy h0
        have h2 : x ∉ (y :: dedupList l) := by
          intro hc
          rcases List.mem_cons.mp hc with h0 | h0
          · exact hxy h0
          · exact hx h0
        rw [if_neg h1, if_neg h2]
        exact List.Perm.swap x y _
  | trans h1 h2 ih1 ih2 => exact ih1.trans ih2

theorem scanFilter_eq_some (input_dir : String) (E : List String) (entry : DirEntry)
    (p : String) :
    scanFilter input_dir E entry = some p ↔
      fileExtLower entry.name ∈ E ∧ entry.isFile = true
        ∧ p = joinPath input_dir entry.name := by
  unfold scanFilter
  by_cases h1 : fileExtLower entry.name ∈ E
  · by_cases h2 : entry.isFile = true
    · simp [h1, h2, eq_comm]
    · simp [h1, h2]
  · simp [h1]

/-! ### Helper lemmas about the run interpreter -/

theorem filter_map_progressUpdate (p : Event → Bool)
    (hp : ∀ m, p (Event.progressUpdate m) = false) (msgs : List String) :
    (msgs.map Event.progressUpdate).filter p = [] := by
  induction msgs with
  | nil => rfl
  | cons m ms ih => simp [List.filter_cons, hp, ih]

/-- The per-file loop never emits `conversion_finished`; when it aborts
(engine not found) its events end in the single fatal `error_critical`, and
otherwise it emits no terminal event at all. -/
theorem convLoop_term_spec (w : ConversionWorker) (env : Env) (total : Nat) :
    ∀ (files : List (Nat × String)) (fi la pr su : Nat),
      ((convLoop w env total files fi la pr su).aborted = true →
        ∃ pre, (convLoop w env total files fi la pr su).events
              = pre ++ [Event.errorCritical engineNotFoundMsg]
          ∧ pre.filter Event.isTerminal = [])
      ∧ ((convLoop w env total files fi la pr su).aborted = false →
        (convLoop w env total files fi la pr su).events.filter Event.isTerminal = []) := by
  intro files
  induction files with
  | nil =>
    intro fi la pr su
    constructor
    · intro h; simp [convLoop] at h
    · intro _; simp [convLoop]
  | cons hd rest ih =>
    obtain ⟨i, path⟩ := hd
    intro fi la pr su
    by_cases hflag : env.flag fi = false
    · constructor
      · intro h; simp [convLoop, hflag] at h
      · intro _; simp [convLoop, hflag, List.filter_cons, Event.isTerminal]
    · have hflag' : env.flag fi = true := by
        cases h0 : env.flag fi with
        | false => exact absurd h0 hflag
        | true => rfl
      cases hproc : env.proc la with
      | engineNotFound =>
        constructor
        · intro _
          refine ⟨Event.progressUpdate ("[" ++ toString (i + 1) ++ "/" ++ toString total
              ++ "] Convertendo: " ++ pathBasename path ++ "...")
              :: (rcNoticeMsgs w.ffmpeg_params).map Event.progressUpdate, ?_, ?_⟩
          · simp [convLoop, hflag', hproc]
          · simp [List.filter_cons, Event.isTerminal,
              filter_map_progressUpdate Event.isTerminal (fun m => rfl)]
        · intro hab
          simp [convLoop, hflag', hproc] at hab
      | otherError m =>
        have hab_eq : (convLoop w env total ((i, path) :: rest) fi la pr su).aborted
            = (convLoop w env total rest (fi + 1) (la + 1) (pr + 1) su).aborted := by
          simp [convLoop, hflag', hproc]
        constructor
        · intro hab
          rw [hab_eq] at hab
          obtain ⟨pre, hpre, hfil⟩ := (ih (fi + 1) (la + 1) (pr + 1) su).1 hab
          refine ⟨Event.progressUpdate ("[" ++ toString (i + 1) ++ "/" ++ toString total
              ++ "] Convertendo: " ++ pathBasename path ++ "...")
              :: ((rcNoticeMsgs w.ffmpeg_params).map Event.progressUpdate
                ++ ([Event.progressUpdate ("Exceção durante conversão de "
                      ++ pathBasename path ++ ": " ++ m),
                    Event.overallProgress (i + 1) total] ++ pre)), ?_, ?_⟩
          · simp [convLoop, hflag', hproc, hpre]
          · simp [List.filter_cons, List.filter_append, Event.isTerminal,
              filter_map_progressUpdate Event.isTerminal (fun m => rfl), hfil]
        · intro hab
          rw [hab_eq] at hab
          have hfil := (ih (fi + 1) (la + 1) (pr + 1) su).2 hab
          simp [convLoop, hflag', hproc, List.filter_cons, List.filter_append,
            Event.isTerminal, filter_map_progressUpdate Event.isTerminal (fun m => rfl), hfil]
      | exited code stdout stderr =>
        have hab_eq : (convLoop w env total ((i, path) :: rest) fi la pr su).aborted
            = (convLoop w env total rest (fi + 2) (la + 1) (pr + 1)
                (su + (outcomeMsgs (env.flag (fi + 1)) code stdout stderr
                  (pathBasename path)
                  (outputFilename (pathBasename path) w.ffmpeg_params.VIDEO_CODEC_AMF)).2)).aborted := by
          simp [convLoop, hflag', hproc]
        constructor
        · intro hab
          rw [hab_eq] at hab
          obtain ⟨pre, hpre, hfil⟩ := (ih _ _ _ _).1 hab
          refine ⟨Event.progressUpdate ("[" ++ toString (i + 1) ++ "/" ++ toString total
              ++ "] Convertendo: " ++ pathBasename path ++ "...")
              :: ((rcNoticeMsgs w.ffmpeg_params).map Event.progressUpdate
                ++ (((outcomeMsgs (env.flag (fi + 1)) code stdout stderr
                      (pathBasename path)
                      (outputFilename (pathBasename path) w.ffmpeg_params.VIDEO_CODEC_AMF)).1.map
                        Event.progressUpdate
                    ++ ([Event.overallProgress (i + 1) total] ++ pre)))), ?_, ?_⟩
          · simp [convLoop, hflag', hproc, hpre]
          · simp [List.filter_cons, List.filter_append, Event.isTerminal,
              filter_map_progressUpdate Event.isTerminal (fun m => rfl), hfil]
        · intro hab
          rw [hab_eq] at hab
          have hfil := (ih _ _ _ _).2 hab
          simp [convLoop, hflag', hproc, List.filter_cons, List.filter_append,
            Event.isTerminal, filter_map_progressUpdate Event.isTerminal (fun m => rfl), hfil]

theorem getLast?_append_some {α : Type} (A : List α) {B : List α} {x : α}
    (h : B.getLast? = some x) : (A ++ B).getLast? = some x := by
  rw [List.getLast?_append, h]
  rfl

theorem filter_concat_terminal (E : List Event) (t : Event) (ht : t.isTerminal = true)
    (hE : E.filter Event.isTerminal = []) :
    (E ++ [t]).filter Event.isTerminal = [t] := by
  simp [List.filter_append, hE, List.filter_cons, ht]

/-! ### Claim C7: exactly one terminal event -/

/-- C7: for every worker state and environment (any per-file outcomes, any
interleaving of cancellation-flag reads), the emitted event stream contains
exactly one terminal event — `conversion_finished` or `error_critical` — and
that event is the last one of the stream. -/
theorem claim7_terminal_unique (w : ConversionWorker) (env : Env) :
    ∃ t : Event, t.isTerminal = true
      ∧ (runConversions w env).events.filter Event.isTerminal = [t]
      ∧ (runConversions w env).events.getLast? = some t := by
  cases hmk : env.mkdirErr with
  | some e =>
    refine ⟨Event.errorCritical ("Erro crítico ao criar diretório de saída "
        ++ w.output_dir ++ ": " ++ e), rfl, ?_, ?_⟩ <;>
      simp [runConversions, hmk, List.filter_cons, Event.isTerminal]
  | none =>
    by_cases hext : w.target_extensions = []
    · refine ⟨Event.conversionFinished "Nenhum formato de entrada para procurar.",
        rfl, ?_, ?_⟩ <;>
        simp [runConversions, hmk, hext, List.filter_cons, Event.isTerminal]
    · cases hls : env.listing with
      | error err =>
        cases err with
        | notFound =>
          refine ⟨Event.errorCritical ("Erro: Diretório de entrada não encontrado: "
              ++ w.input_dir), rfl, ?_, ?_⟩ <;>
            simp [runConversions, hmk, hext, hls, List.filter_cons, Event.isTerminal]
        | other e =>
          refine ⟨Event.errorCritical ("Erro ao listar arquivos no diretório de entrada: "
              ++ e), rfl, ?_, ?_⟩ <;>
            simp [runConversions, hmk, hext, hls, List.filter_cons, Event.isTerminal]
      | ok L =>
        by_cases hfe : scanFiles w.input_dir L w.target_extensions = []
        · refine ⟨Event.conversionFinished "Nenhum arquivo para converter.", rfl, ?_, ?_⟩ <;>
            simp [runConversions, hmk, hext, hls, hfe, List.filter_cons, Event.isTerminal]
        · set F := scanFiles w.input_dir L w.target_extensions with hF
          have hspec := convLoop_term_spec w env F.length F.enum 0 0 0 0
          cases hab : (convLoop w env F.length F.enum 0 0 0 0).aborted with
          | true =>
            obtain ⟨pre, hpre, hfil⟩ := hspec.1 hab
            have hev : (runConversions w env).events
                = (Event.progressUpdate ("Procurando por arquivos com extensões: "
                      ++ String.intercalate ", " w.target_extensions ++ " em " ++ w.input_dir)
                    :: Event.progressUpdate ("Encontrados " ++ toString F.length
                      ++ " arquivo(s) para processar.")
                    :: Event.overallProgress 0 F.length :: pre)
                  ++ [Event.errorCritical engineNotFoundMsg] := by
              simp [runConversions, hmk, hext, hls, hfe, ← hF, hab, hpre]
            rw [hev]
            refine ⟨Event.errorCritical engineNotFoundMsg, rfl,
              filter_concat_terminal _ _ rfl ?_, List.getLast?_concat _⟩
            simp [List.filter_cons, Event.isTerminal, hfil]
          | false =>
            have hfil := hspec.2 hab
            cases hfl : env.flag (convLoop w env F.length F.enum 0 0 0 0).flagIdx with
            | true =>
              have hev : (runConversions w env).events
                  = (Event.progressUpdate ("Procurando por arquivos com extensões: "
                        ++ String.intercalate ", " w.target_extensions ++ " em " ++ w.input_dir)
                      :: Event.progressUpdate ("Encontrados " ++ toString F.length
                        ++ " arquivo(s) para processar.")
                      :: Event.overallProgress 0 F.length
                      :: (convLoop w env F.length F.enum 0 0 0 0).events)
                    ++ [Event.conversionFinished ("Conversão concluída. "
                        ++ toString (convLoop w env F.length F.enum 0 0 0 0).succeeded
                        ++ "/" ++ toString F.length
                        ++ " arquivos convertidos com sucesso.")] := by
                simp [runConversions, hmk, hext, hls, hfe, ← hF, hab, hfl]
              rw [hev]
              refine ⟨Event.conversionFinished ("Conversão concluída. "
                  ++ toString (convLoop w env F.length F.enum 0 0 0 0).succeeded
                  ++ "/" ++ toString F.length
                  ++ " arquivos convertidos com sucesso."), rfl,
                filter_concat_terminal _ _ rfl ?_, List.getLast?_concat _⟩
              simp [List.filter_cons, Event.isTerminal, hfil]
            | false =>
              have hev : (runConversions w env).events
                  = (Event.progressUpdate ("Procurando por arquivos com extensões: "
                        ++ String.intercalate ", " w.target_extensions ++ " em " ++ w.input_dir)
                      :: Event.progressUpdate ("Encontrados " ++ toString F.length
                        ++ " arquivo(s) para processar.")
                      :: Event.overallProgress 0 F.length
                      :: (convLoop w env F.length F.enum 0 0 0 0).events)
                    ++ [Event.conversionFinished ("Conversão cancelada. "
                        ++ toString (convLoop w env F.length F.enum 0 0 0 0).succeeded
                        ++ "/" ++ toString (convLoop w env F.length F.enum 0 0 0 0).processed
                        ++ " arquivos processados antes do cancelamento.")] := by
                simp [runConversions, hmk, hext, hls, hfe, ← hF, hab, hfl]
              rw [hev]
              refine ⟨Event.conversionFinished ("Conversão cancelada. "
                  ++ toString (convLoop w env F.length F.enum 0 0 0 0).succeeded
                  ++ "/" ++ toString (convLoop w env F.length F.enum 0 0 0 0).processed
                  ++ " arquivos processados antes do cancelamento."), rfl,
                filter_concat_terminal _ _ rfl ?_, List.getLast?_concat _⟩
              simp [List.filter_cons, Event.isTerminal, hfil]

theorem overallPairs_nil : overallPairs [] = [] := rfl

theorem overallPairs_cons_progress (m : String) (l : List Event) :
    overallPairs (Event.progressUpdate m :: l) = overallPairs l := by
  simp [overallPairs, List.filterMap_cons]

theorem overallPairs_cons_overall (d t : Nat) (l : List Event) :
    overallPairs (Event.overallProgress d t :: l) = (d, t) :: overallPairs l := by
  simp [overallPairs, List.filterMap_cons]

theorem overallPairs_cons_finished (m : String) (l : List Event) :
    overallPairs (Event.conversionFinished m :: l) = overallPairs l := by
  simp [overallPairs, List.filterMap_cons]

theorem overallPairs_append (l₁ l₂ : List Event) :
    overallPairs (l₁ ++ l₂) = overallPairs l₁ ++ overallPairs l₂ := by
  simp [overallPairs, List.filterMap_append]

theorem overallPairs_map_progress (msgs : List String) :
    overallPairs (msgs.map Event.progressUpdate) = [] := by
  induction msgs with
  | nil => rfl
  | cons m ms ih => rw [List.map_cons, overallPairs_cons_progress, ih]

/-- Without an engine-not-found launch result the loop never aborts, whatever
the flag reads are. -/
theorem convLoop_no_abort (w : ConversionWorker) (env : Env) (total : Nat)
    (hproc : ∀ k, env.proc k ≠ ProcResult.engineNotFound) :
    ∀ (files : List (Nat × String)) (fi la pr su : Nat),
      (convLoop w env total files fi la pr su).aborted = false := by
  intro files
  induction files with
  | nil => intro fi la pr su; rfl
  | cons hd rest ih =>
    obtain ⟨i, path⟩ := hd
    intro fi la pr su
    by_cases hflag : env.flag fi = false
    · simp [convLoop, hflag]
    · have hflag' : env.flag fi = true := by
        cases h0 : env.flag fi with
        | false => exact absurd h0 hflag
        | true => rfl
      cases hproc' : env.proc la with
      | engineNotFound => exact absurd hproc' (hproc la)
      | otherError m => simp [convLoop, hflag', hproc', ih]
      | exited code stdout stderr => simp [convLoop, hflag', hproc', ih]

/-- Under no cancellation and no engine-not-found result, the loop emits
exactly one `overall_progress` event per file, with the pair `(i+1, total)`
for the file of index `i`, regardless of each file's outcome. -/
theorem convLoop_overall (w : ConversionWorker) (env : Env) (total : Nat)
    (hflag : ∀ k, env.flag k = true)
    (hproc : ∀ k, env.proc k ≠ ProcResult.engineNotFound) :
    ∀ (files : List (Nat × String)) (fi la pr su : Nat),
      overallPairs (convLoop w env total files fi la pr su).events
        = files.map (fun p => (p.1 + 1, total)) := by
  intro files
  induction files with
  | nil => intro fi la pr su; rfl
  | cons hd rest ih =>
    obtain ⟨i, path⟩ := hd
    intro fi la pr su
    have hflag' := hflag fi
    cases hproc' : env.proc la with
    | engineNotFound => exact absurd hproc' (hproc la)
    | otherError m =>
      simp [convLoop, hflag', hproc', overallPairs_cons_progress, overallPairs_append,
        overallPairs_map_progress, overallPairs_cons_overall, overallPairs_nil, ih]
    | exited code stdout stderr =>
      simp [convLoop, hflag', hproc', overallPairs_cons_progress, overallPairs_append,
        overallPairs_map_progress, overallPairs_cons_overall, overallPairs_nil, ih]

theorem enumFrom_map_succ_pair {α : Type} (N : Nat) :
    ∀ (l : List α) (n : Nat),
      (List.enumFrom n l).map (fun p => (p.1 + 1, N))
        = (List.range' n l.length).map (fun i => (i + 1, N)) := by
  intro l
  induction l with
  | nil => intro n; rfl
  | cons x xs ih =>
    intro n
    simp only [List.enumFrom, List.length_cons, List.range', List.map_cons]
    rw [ih (n + 1)]

theorem enum_map_succ_pair {α : Type} (N : Nat) (l : List α) :
    l.enum.map (fun p => (p.1 + 1, N)) = (List.range l.length).map (fun i => (i + 1, N)) := by
  rw [List.range_eq_range']
  exact enumFrom_map_succ_pair N l 0

/-! ### Claim C3: the file scanner -/

/-- C3: for every listing `L` and extension set `E` (without the empty
extension, as the worker constructor guarantees), the scan result is sorted
and duplicate-free; its members are exactly the joined paths of regular-file
entries whose name decomposes as `pre.ext` with a dot-free `ext` whose
lower-casing is in `E` (so names without a dot are excluded); and the result
is invariant under permutations of the listing order. -/
theorem claim3_scanner (input_dir : String) (L : List DirEntry) (E : List String)
    (hE : "" ∉ E) :
    (scanFiles input_dir L E).Sorted (fun a b => strLe a b = true)
    ∧ (scanFiles input_dir L E).Nodup
    ∧ (∀ p, p ∈ scanFiles input_dir L E ↔
        ∃ entry ∈ L, entry.isFile = true
          ∧ (∃ pre ext, entry.name.toList = pre ++ '.' :: ext ∧ '.' ∉ ext
              ∧ String.mk (ext.map Char.toLower) ∈ E)
          ∧ p = joinPath input_dir entry.name)
    ∧ (∀ L₂, List.Perm L L₂ → scanFiles input_dir L E = scanFiles input_dir L₂ E) := by
  refine ⟨List.sorted_insertionSort _ _, ?_, ?_, ?_⟩
  · exact (List.perm_insertionSort _ _).symm.nodup
      (nodup_dedupList (L.filterMap (scanFilter input_dir E)))
  · intro p
    unfold scanFiles
    rw [(List.perm_insertionSort _ _).mem_iff, mem_dedupList, List.mem_filterMap]
    constructor
    · rintro ⟨entry, hmem, hsome⟩
      obtain ⟨hext, hfile, hp⟩ := (scanFilter_eq_some input_dir E entry p).mp hsome
      obtain ⟨pre, ext, hdec, hnd, hlow⟩ := (fileExtLower_mem_iff hE).mp hext
      exact ⟨entry, hmem, hfile, ⟨pre, ext, hdec, hnd, hlow⟩, hp⟩
    · rintro ⟨entry, hmem, hfile, ⟨pre, ext, hdec, hnd, hlow⟩, hp⟩
      refine ⟨entry, hmem, (scanFilter_eq_some input_dir E entry p).mpr ⟨?_, hfile, hp⟩⟩
      exact (fileExtLower_mem_iff hE).mpr ⟨pre, ext, hdec, hnd, hlow⟩
  · intro L₂ hperm
    unfold scanFiles
    refine List.eq_of_perm_of_sorted ?_ (List.sorted_insertionSort _ _)
      (List.sorted_insertionSort _ _)
    exact ((List.perm_insertionSort _ _).trans
      (perm_dedupList (hperm.filterMap (scanFilter input_dir E)))).trans
      (List.perm_insertionSort _ _).symm

/-- Witness for C3: the spec scenario `a.mp4`, `b.MKV`, `c.txt` against the
extension set `mp4, mkv` — listed in reversed order to exercise the
order-independence clause. -/
theorem claim3_scanner_witness :
    "" ∉ (["mp4", "mkv"] : List String)
    ∧ (scanFiles "/in" [⟨"c.txt", true⟩, ⟨"b.MKV", true⟩, ⟨"a.mp4", true⟩]
        ["mp4", "mkv"]).Sorted (fun a b => strLe a b = true)
    ∧ ("/in/b.MKV" ∈ scanFiles "/in" [⟨"c.txt", true⟩, ⟨"b.MKV", true⟩, ⟨"a.mp4", true⟩]
        ["mp4", "mkv"] ↔
        ∃ entry ∈ ([⟨"c.txt", true⟩, ⟨"b.MKV", true⟩, ⟨"a.mp4", true⟩] : List DirEntry),
          entry.isFile = true
          ∧ (∃ pre ext, entry.name.toList = pre ++ '.' :: ext ∧ '.' ∉ ext
              ∧ String.mk (ext.map Char.toLower) ∈ (["mp4", "mkv"] : List String))
          ∧ "/in/b.MKV" = joinPath "/in" entry.name) :=
  have h := claim3_scanner "/in" [⟨"c.txt", true⟩, ⟨"b.MKV", true⟩, ⟨"a.mp4", true⟩]
    ["mp4", "mkv"] (by decide)
  ⟨by decide, h.1, h.2.2.1 "/in/b.MKV"⟩

/-! ### Claim C4: rate-control policy fallback -/

/-- C4: for every `EncoderConfig` whose rate-control mode is neither `cqp`
nor `vbr_peak`, the built argument list is identical to the one built for the
same config with mode `cqp`, QP value `23` and quality preset `quality` (all
other configured fields, including the video codec, unchanged), and a
policy-fallback notice is logged. -/
theorem claim4_rc_fallback (cfg : FfmpegConfig) (input_path output_path : String)
    (h1 : cfg.RC_MODE ≠ "cqp") (h2 : cfg.RC_MODE ≠ "vbr_peak") :
    buildCmd cfg input_path output_path
        = buildCmd
            { cfg with RC_MODE := "cqp", QP_VALUE := "23", QUALITY_PRESET := "quality" }
            input_path output_path
      ∧ rcNoticeMsgs cfg ≠ [] := by
  constructor
  · unfold buildCmd rcArgs
    simp [h1, h2]
  · unfold rcNoticeMsgs
    simp [h1, h2]

/-- Witness for C4 at a concrete configuration with the unknown mode `cbr`. -/
theorem claim4_rc_fallback_witness :
    (({ DEFAULT_FFMPEG_CONFIG with RC_MODE := "cbr" } : FfmpegConfig).RC_MODE ≠ "cqp")
    ∧ (({ DEFAULT_FFMPEG_CONFIG with RC_MODE := "cbr" } : FfmpegConfig).RC_MODE ≠ "vbr_peak")
    ∧ (buildCmd { DEFAULT_FFMPEG_CONFIG with RC_MODE := "cbr" } "a.mp4" "out.mp4"
          = buildCmd
              { { DEFAULT_FFMPEG_CONFIG with RC_MODE := "cbr" } with
                  RC_MODE := "cqp", QP_VALUE := "23", QUALITY_PRESET := "quality" }
              "a.mp4" "out.mp4"
        ∧ rcNoticeMsgs { DEFAULT_FFMPEG_CONFIG with RC_MODE := "cbr" } ≠ []) :=
  ⟨by decide, by decide,
    claim4_rc_fallback { DEFAULT_FFMPEG_CONFIG with RC_MODE := "cbr" } "a.mp4" "out.mp4"
      (by decide) (by decide)⟩

/-! ### Claim C5: flag membership per rate-control mode -/

/-- C5: for every valid `EncoderConfig` (no field collides with a flag token)
with rate-control mode `cqp`, the built argument list contains the QP flag and
quality-preset flag and no bitrate or max-bitrate flags; with mode `vbr_peak`
it contains the bitrate and max-bitrate flags and no QP flag. -/
theorem claim5_rc_flag_membership (cfg : FfmpegConfig) (input_path output_path : String)
    (h : fieldsAvoidFlagTokens cfg input_path output_path) :
    (cfg.RC_MODE = "cqp" →
        "-qp" ∈ buildCmd cfg input_path output_path
      ∧ "-quality" ∈ buildCmd cfg input_path output_path
      ∧ "-b:v" ∉ buildCmd cfg input_path output_path
      ∧ "-maxrate" ∉ buildCmd cfg input_path output_path)
    ∧ (cfg.RC_MODE = "vbr_peak" →
        "-b:v" ∈ buildCmd cfg input_path output_path
      ∧ "-maxrate" ∈ buildCmd cfg input_path output_path
      ∧ "-qp" ∉ buildCmd cfg input_path output_path) := by
  obtain ⟨q1, q2, q3, q4, q5, q6, q7, q8, q9⟩ := h "-qp" (by simp [flagTokens])
  obtain ⟨b1, b2, b3, b4, b5, b6, b7, b8, b9⟩ := h "-b:v" (by simp [flagTokens])
  obtain ⟨m1, m2, m3, m4, m5, m6, m7, m8, m9⟩ := h "-maxrate" (by simp [flagTokens])
  constructor
  · intro hmode
    refine ⟨?_, ?_, ?_, ?_⟩
    · simp [buildCmd, rcArgs, hmode]
    · simp [buildCmd, rcArgs, hmode]
    · simp [buildCmd, rcArgs, hmode, b1, b2, b3, b4, b5, b6, b7, b8, b9]
    · simp [buildCmd, rcArgs, hmode, m1, m2, m3, m4, m5, m6, m7, m8, m9]
  · intro hmode
    refine ⟨?_, ?_, ?_⟩
    · simp [buildCmd, rcArgs, hmode]
    · simp [buildCmd, rcArgs, hmode]
    · simp [buildCmd, rcArgs, hmode, q1, q2, q3, q4, q5, q6, q7, q8, q9]

/-- Witness for C5 at the default configuration (mode `cqp`) and at its
`vbr_peak` variant. -/
theorem claim5_rc_flag_membership_witness :
    fieldsAvoidFlagTokens DEFAULT_FFMPEG_CONFIG "a.mp4" "out.mp4"
    ∧ DEFAULT_FFMPEG_CONFIG.RC_MODE = "cqp"
    ∧ ("-qp" ∈ buildCmd DEFAULT_FFMPEG_CONFIG "a.mp4" "out.mp4"
      ∧ "-quality" ∈ buildCmd DEFAULT_FFMPEG_CONFIG "a.mp4" "out.mp4"
      ∧ "-b:v" ∉ buildCmd DEFAULT_FFMPEG_CONFIG "a.mp4" "out.mp4"
      ∧ "-maxrate" ∉ buildCmd DEFAULT_FFMPEG_CONFIG "a.mp4" "out.mp4") :=
  ⟨by decide, rfl,
    (claim5_rc_flag_membership DEFAULT_FFMPEG_CONFIG "a.mp4" "out.mp4" (by decide)).1 rfl⟩

/-! ### Claim C8: derived output filename -/

/-- C8: for every source file name `b.e` and codec, the derived output
filename is `<base>_jellyfin_<codec short name>_gpu.mp4` with the `.mp4`
extension fixed regardless of the input container `e`; the AMF H.264
identifier `h264_amf` yields short name `x264`; and the derivation is a pure
function of its inputs (identical inputs give identical output). -/
theorem claim8_output_filename (b e codec : String)
    (hb : b.toList.any (fun c => c ≠ '.') = true) (he : '.' ∉ e.toList) :
    outputFilename (b ++ "." ++ e) codec
        = b ++ "_jellyfin_" ++ codecShortName codec ++ "_gpu.mp4"
      ∧ codecShortName "h264_amf" = "x264"
      ∧ (∀ s₁ s₂ c₁ c₂ : String, s₁ = s₂ → c₁ = c₂ →
          outputFilename s₁ c₁ = outputFilename s₂ c₂) := by
  refine ⟨?_, by decide, fun s₁ s₂ c₁ c₂ hs hc => by rw [hs, hc]⟩
  unfold outputFilename
  rw [splitextBase_append hb he]

/-- Witness for C8 at the concrete source file `video.mkv` with codec
`h264_amf`. -/
theorem claim8_output_filename_witness :
    ("video" : String).toList.any (fun c => c ≠ '.') = true
    ∧ '.' ∉ ("mkv" : String).toList
    ∧ (outputFilename ("video" ++ "." ++ "mkv") "h264_amf"
          = "video" ++ "_jellyfin_" ++ codecShortName "h264_amf" ++ "_gpu.mp4"
        ∧ codecShortName "h264_amf" = "x264"
        ∧ (∀ s₁ s₂ c₁ c₂ : String, s₁ = s₂ → c₁ = c₂ →
            outputFilename s₁ c₁ = outputFilename s₂ c₂)) :=
  ⟨by decide, by decide, claim8_output_filename "video" "mkv" "h264_amf" (by decide) (by decide)⟩

/-! ### Claim C10: hevc short name -/

/-- C10: the codec short-name derivation strips the `_amf` suffix and then
replaces every occurrence of `h` by `x` in the remainder; consequently
`hevc_amf` yields `xevc`, and the output filename for any source `b.e` is
`<base>_jellyfin_xevc_gpu.mp4`. -/
theorem claim10_hevc_short_name (c : List Char)
    (hocc : containsSeq "_amf".toList (c ++ "_amf".toList.dropLast) = false) :
    codecShortName (String.mk (c ++ "_amf".toList))
        = String.mk (c.map (fun ch => if ch = 'h' then 'x' else ch))
      ∧ codecShortName "hevc_amf" = "xevc"
      ∧ (∀ b e : String, b.toList.any (fun ch => ch ≠ '.') = true → '.' ∉ e.toList →
          outputFilename (b ++ "." ++ e) "hevc_amf" = b ++ "_jellyfin_xevc_gpu.mp4") := by
  refine ⟨codecShortName_strip c hocc, by decide, ?_⟩
  intro b e hb he
  unfold outputFilename
  rw [splitextBase_append hb he]
  rw [show codecShortName "hevc_amf" = "xevc" from by decide]
  rw [String.append_assoc b, String.append_assoc b, String.append_assoc "_jellyfin_"]
  rw [show ("_jellyfin_" ++ ("xevc" ++ "_gpu.mp4") : String) = "_jellyfin_xevc_gpu.mp4" from by decide]

/-- Witness for C10 with the remainder `hevc` and source `film.avi`. -/
theorem claim10_hevc_short_name_witness :
    containsSeq "_amf".toList ("hevc".toList ++ "_amf".toList.dropLast) = false
    ∧ (codecShortName (String.mk ("hevc".toList ++ "_amf".toList))
          = String.mk ("hevc".toList.map (fun ch => if ch = 'h' then 'x' else ch))
        ∧ codecShortName "hevc_amf" = "xevc"
        ∧ (∀ b e : String, b.toList.any (fun ch => ch ≠ '.') = true → '.' ∉ e.toList →
            outputFilename (b ++ "." ++ e) "hevc_amf" = b ++ "_jellyfin_xevc_gpu.mp4")) :=
  ⟨by decide, claim10_hevc_short_name "hevc".toList (by decide)⟩

/-! ### Claim C2 (amended): overall-progress accounting -/

/-- Counterexample to C2 as stated: in the 3-file scenario the
`overall_progress` pair sequence is not (1,3) (2,3) (3,3) — the code emits an
initial (0,3) before the loop. -/
theorem claim2_counterexample :
    overallPairs (runConversions wScenario envScenario).events
      ≠ [(1, 3), (2, 3), (3, 3)] := by decide

/-- C2 (amended): for every batch that reaches Running with N files and is
never cancelled, `overall_progress` is emitted once per file with pair
`(i+1, N)` regardless of each file's outcome, after one initial `(0, N)`
emission; in the 3-file scenario where file 2 exits with code 1 the pair
sequence is exactly (0,3) (1,3) (2,3) (3,3) and the summary reports 2/3
succeeded. -/
theorem claim2_overall_progress (w : ConversionWorker) (env : Env) (L : List DirEntry)
    (hmk : env.mkdirErr = none) (hls : env.listing = Except.ok L)
    (hext : w.target_extensions ≠ [])
    (hfe : scanFiles w.input_dir L w.target_extensions ≠ [])
    (hflag : ∀ k, env.flag k = true)
    (hproc : ∀ k, env.proc k ≠ ProcResult.engineNotFound) :
    overallPairs (runConversions w env).events
        = (0, (scanFiles w.input_dir L w.target_extensions).length)
          :: (List.range (scanFiles w.input_dir L w.target_extensions).length).map
              (fun i => (i + 1, (scanFiles w.input_dir L w.target_extensions).length))
      ∧ overallPairs (runConversions wScenario envScenario).events
          = [(0, 3), (1, 3), (2, 3), (3, 3)]
      ∧ (runConversions wScenario envScenario).events.getLast?
          = some (Event.conversionFinished
              "Conversão concluída. 2/3 arquivos convertidos com sucesso.") := by
  refine ⟨?_, by decide, by decide⟩
  have hab := convLoop_no_abort w env
    (scanFiles w.input_dir L w.target_extensions).length hproc
    (scanFiles w.input_dir L w.target_extensions).enum 0 0 0 0
  have hov := convLoop_overall w env
    (scanFiles w.input_dir L w.target_extensions).length hflag hproc
    (scanFiles w.input_dir L w.target_extensions).enum 0 0 0 0
  simp [runConversions, hmk, hls, hext, hfe, hab,
    overallPairs_append, overallPairs_cons_progress, overallPairs_cons_overall,
    overallPairs_cons_finished, overallPairs_nil, hov]
  rw [enum_map_succ_pair]

/-- Witness for C2 at the concrete 3-file scenario. -/
theorem claim2_overall_progress_witness :
    overallPairs (runConversions wScenario envScenario).events
        = (0, (scanFiles wScenario.input_dir
              [⟨"a.mp4", true⟩, ⟨"b.mp4", true⟩, ⟨"c.mp4", true⟩]
              wScenario.target_extensions).length)
          :: (List.range (scanFiles wScenario.input_dir
              [⟨"a.mp4", true⟩, ⟨"b.mp4", true⟩, ⟨"c.mp4", true⟩]
              wScenario.target_extensions).length).map
              (fun i => (i + 1, (scanFiles wScenario.input_dir
                [⟨"a.mp4", true⟩, ⟨"b.mp4", true⟩, ⟨"c.mp4", true⟩]
                wScenario.target_extensions).length)) :=
  (claim2_overall_progress wScenario envScenario
    [⟨"a.mp4", true⟩, ⟨"b.mp4", true⟩, ⟨"c.mp4", true⟩]
    rfl rfl (by decide) (by decide) (fun k => rfl)
    (fun k => by
      unfold envScenario
      by_cases hk : k = 1 <;> simp [hk])).1

/-! ### Claim C1 (amended): cancellation versus exit code -/

/-- Counterexample to C1 as stated: one file, cancellation arriving while the
process is live, terminated process exits 0 — the code records a success,
counts the file in the succeeded counter, and records no interruption. -/
theorem claim1_counterexample :
    (runConversions wScenario envCancelExit0).succeeded = 1
    ∧ Event.progressUpdate "Sucesso: a_jellyfin_x264_gpu.mp4"
        ∈ (runConversions wScenario envCancelExit0).events
    ∧ Event.progressUpdate "Conversão de a.mp4 interrompida."
        ∉ (runConversions wScenario envCancelExit0).events := by decide

/-- C1 (amended): when cancellation was requested while the process was live
(the `_is_running` read after `communicate` returns false), the outcome is
recorded as interrupted only if the terminated process exits with a nonzero
code; on exit code 0 the file is recorded as a success and counted in the
succeeded counter — as the concrete cancelled run shows, whose summary still
reports cancellation. -/
theorem claim1_cancelled_outcome (code : Int) (stdout stderr fname oname : String) :
    ((code ≠ 0 → outcomeMsgs false code stdout stderr fname oname
          = (["Conversão de " ++ fname ++ " interrompida."], 0))
      ∧ (code = 0 → outcomeMsgs false code stdout stderr fname oname
          = (["Sucesso: " ++ oname], 1)))
    ∧ ((runConversions wScenario envCancelExit0).succeeded = 1
      ∧ (runConversions wScenario envCancelExit0).events.getLast?
          = some (Event.conversionFinished
              "Conversão cancelada. 1/1 arquivos processados antes do cancelamento.")) := by
  refine ⟨⟨?_, ?_⟩, by decide, by decide⟩
  · intro h
    simp [outcomeMsgs, h]
  · intro h
    simp [outcomeMsgs, h]

/-- Witness for C1 at exit codes 1 and 0. -/
theorem claim1_cancelled_outcome_witness :
    outcomeMsgs false 1 "" "" "a.mp4" "a_jellyfin_x264_gpu.mp4"
        = (["Conversão de a.mp4 interrompida."], 0)
    ∧ outcomeMsgs false 0 "" "" "a.mp4" "a_jellyfin_x264_gpu.mp4"
        = (["Sucesso: a_jellyfin_x264_gpu.mp4"], 1) :=
  ⟨(claim1_cancelled_outcome 1 "" "" "a.mp4" "a_jellyfin_x264_gpu.mp4").1.1 (by decide),
   (claim1_cancelled_outcome 0 "" "" "a.mp4" "a_jellyfin_x264_gpu.mp4").1.2 rfl⟩

/-! ### Claim C6: engine not found aborts the batch -/

/-- C6: if the batch reaches its first process launch and that launch fails
with engine-not-found, the run emits a single `error_critical` event carrying
the engine-not-found message as its last event, never emits
`conversion_finished`, and attempts no further launches (exactly one launch
in total). -/
theorem claim6_engine_not_found (w : ConversionWorker) (env : Env) (L : List DirEntry)
    (hmk : env.mkdirErr = none) (hls : env.listing = Except.ok L)
    (hext : w.target_extensions ≠ [])
    (hfe : scanFiles w.input_dir L w.target_extensions ≠ [])
    (hflag0 : env.flag 0 = true)
    (hproc0 : env.proc 0 = ProcResult.engineNotFound) :
    (runConversions w env).events.filter Event.isCritical
        = [Event.errorCritical engineNotFoundMsg]
    ∧ (runConversions w env).events.getLast?
        = some (Event.errorCritical engineNotFoundMsg)
    ∧ (runConversions w env).events.filter Event.isFinished = []
    ∧ (runConversions w env).launches = 1 := by
  obtain ⟨f, fs, hsc⟩ := List.exists_cons_of_ne_nil hfe
  have henum : (scanFiles w.input_dir L w.target_extensions).enum
      = (0, f) :: List.enumFrom 1 fs := by
    rw [hsc]
    rfl
  refine ⟨?_, ?_, ?_, ?_⟩
  · simp [runConversions, hmk, hls, hext, hfe, henum, convLoop, hflag0, hproc0,
      Event.isCritical, List.filter_append, List.filter_cons,
      filter_map_progressUpdate Event.isCritical (fun m => rfl)]
  · have hev : (runConversions w env).events
        = (Event.progressUpdate ("Procurando por arquivos com extensões: "
              ++ String.intercalate ", " w.target_extensions ++ " em " ++ w.input_dir)
            :: Event.progressUpdate ("Encontrados "
              ++ toString (scanFiles w.input_dir L w.target_extensions).length
              ++ " arquivo(s) para processar.")
            :: Event.overallProgress 0 (scanFiles w.input_dir L w.target_extensions).length
            :: Event.progressUpdate ("[" ++ toString (0 + 1) ++ "/"
              ++ toString (scanFiles w.input_dir L w.target_extensions).length
              ++ "] Convertendo: " ++ pathBasename f ++ "...")
            :: (rcNoticeMsgs w.ffmpeg_params).map Event.progressUpdate)
          ++ [Event.errorCritical engineNotFoundMsg] := by
      simp [runConversions, hmk, hls, hext, hfe, henum, convLoop, hflag0, hproc0]
    rw [hev]
    exact List.getLast?_concat _
  · simp [runConversions, hmk, hls, hext, hfe, henum, convLoop, hflag0, hproc0,
      Event.isFinished, List.filter_append, List.filter_cons,
      filter_map_progressUpdate Event.isFinished (fun m => rfl)]
  · simp [runConversions, hmk, hls, hext, hfe, henum, convLoop, hflag0, hproc0]

/-- Witness for C6 at the concrete engine-missing scenario. -/
theorem claim6_engine_not_found_witness :
    (runConversions wScenario envEngineMissing).events.filter Event.isCritical
        = [Event.errorCritical engineNotFoundMsg]
    ∧ (runConversions wScenario envEngineMissing).events.getLast?
        = some (Event.errorCritical engineNotFoundMsg)
    ∧ (runConversions wScenario envEngineMissing).events.filter Event.isFinished = []
    ∧ (runConversions wScenario envEngineMissing).launches = 1 :=
  claim6_engine_not_found wScenario envEngineMissing
    [⟨"a.mp4", true⟩, ⟨"b.mp4", true⟩]
    rfl rfl (by decide) (by decide) rfl rfl

/-! ### Claim C9: output directory creation comes first -/

/-- C9: the worker attempts to create the output directory before checking
the extension set or listing the input directory — the mkdir action is the
first action of every run; consequently, when creation succeeds, the
directory exists after the run even when the extension set is empty (the run
then performs no other action and terminates with the nothing-to-do terminal
event) or when no files match. -/
theorem claim9_mkdir_first (w : ConversionWorker) (env : Env) :
    (runConversions w env).actions.head? = some (Action.mkdirOutput w.output_dir)
    ∧ (env.mkdirErr = none → w.target_extensions = [] →
        (runConversions w env).actions = [Action.mkdirOutput w.output_dir]
        ∧ (runConversions w env).events.getLast?
            = some (Event.conversionFinished "Nenhum formato de entrada para procurar."))
    ∧ (env.mkdirErr = none → ∀ L, env.listing = Except.ok L →
        w.target_extensions ≠ [] →
        scanFiles w.input_dir L w.target_extensions = [] →
        (runConversions w env).actions
            = [Action.mkdirOutput w.output_dir, Action.listInput w.input_dir]
        ∧ (runConversions w env).events.getLast?
            = some (Event.conversionFinished "Nenhum arquivo para converter.")) := by
  refine ⟨?_, ?_, ?_⟩
  · cases hmk : env.mkdirErr with
    | some e => simp [runConversions, hmk]
    | none =>
      by_cases hext : w.target_extensions = []
      · simp [runConversions, hmk, hext]
      · cases hls : env.listing with
        | error err => cases err <;> simp [runConversions, hmk, hext, hls]
        | ok L =>
          by_cases hfe : scanFiles w.input_dir L w.target_extensions = []
          · simp [runConversions, hmk, hext, hls, hfe]
          · by_cases hab : (convLoop w env
                (scanFiles w.input_dir L w.target_extensions).length
                (scanFiles w.input_dir L w.target_extensions).enum 0 0 0 0).aborted <;>
              simp [runConversions, hmk, hext, hls, hfe, hab]
  · intro hmk hext
    constructor <;> simp [runConversions, hmk, hext]
  · intro hmk L hls hext hfe
    constructor <;> simp [runConversions, hmk, hls, hext, hfe]

/-- Witness for C9: an empty-extension run and an empty-scan run. -/
theorem claim9_mkdir_first_witness :
    ((runConversions wNoExt envIdle).actions = [Action.mkdirOutput wNoExt.output_dir]
      ∧ (runConversions wNoExt envIdle).events.getLast?
          = some (Event.conversionFinished "Nenhum formato de entrada para procurar."))
    ∧ ((runConversions wScenario envIdle).actions
          = [Action.mkdirOutput wScenario.output_dir, Action.listInput wScenario.input_dir]
      ∧ (runConversions wScenario envIdle).events.getLast?
          = some (Event.conversionFinished "Nenhum arquivo para converter.")) :=
  ⟨(claim9_mkdir_first wNoExt envIdle).2.1 rfl rfl,
   (claim9_mkdir_first wScenario envIdle).2.2 rfl [] rfl (by decide) rfl⟩

end Conversor
